import Mathlib

/-!
Shallow embedding of the peer-session orchestration code of this repository
(class WebRTCClient, both variants in src/unnamed/part_000, and class
ChatManager in src/js/chat.js), together with theorems settling the
specification claims about it.  Pure data is translated directly; the
browser collaborators the code calls into (the RTCPeerConnection engine,
timers, the socket) are modelled explicitly: engine calls return
Except values mirroring the W3C signaling-state rules, timer callbacks
become explicit events, and socket emissions are accumulated in lists.
-/

namespace Webrtc

/-!
Association-list maps modelling the JS Map objects the client keeps
(this.peerConnections, this.dataChannels).  Map.set replaces an existing
key in place, Map.delete removes the entry, Map.get looks up.
-/

def lookupKey {β : Type} : List (Nat × β) → Nat → Option β
  | [], _ => none
  | p :: rest, k => if p.1 = k then some p.2 else lookupKey rest k

def setKey {β : Type} : List (Nat × β) → Nat → β → List (Nat × β)
  | [], k, v => [(k, v)]
  | p :: rest, k, v => if p.1 = k then (k, v) :: rest else p :: setKey rest k v

def eraseKey {β : Type} (l : List (Nat × β)) (k : Nat) : List (Nat × β) :=
  l.filter (fun p => p.1 != k)

theorem lookupKey_setKey_self {β : Type} (l : List (Nat × β)) (k : Nat) (v : β) :
    lookupKey (setKey l k v) k = some v := by
  induction l with
  | nil => simp [setKey, lookupKey]
  | cons p rest ih =>
    by_cases h : p.1 = k
    · simp [setKey, lookupKey, h]
    · simp [setKey, lookupKey, h, ih]

theorem lookupKey_setKey_ne {β : Type} (l : List (Nat × β)) (k q : Nat) (v : β)
    (h : q ≠ k) : lookupKey (setKey l k v) q = lookupKey l q := by
  induction l with
  | nil =>
    simp [setKey, lookupKey]
    intro hk
    exact absurd hk.symm h
  | cons p rest ih =>
    by_cases hp : p.1 = k
    · subst hp
      have hq : ¬ p.1 = q := fun hq => h hq.symm
      simp [setKey, lookupKey, hq]
    · simp [setKey, lookupKey, hp, ih]

theorem mem_setKey {β : Type} (l : List (Nat × β)) (k : Nat) (v : β) :
    ∀ p ∈ setKey l k v, p = (k, v) ∨ p ∈ l := by
  induction l with
  | nil => simp [setKey]
  | cons q rest ih =>
    intro p hp
    by_cases hq : q.1 = k
    · simp [setKey, hq] at hp
      rcases hp with h | h
      · exact Or.inl h
      · exact Or.inr (List.mem_cons_of_mem _ h)
    · simp [setKey, hq] at hp
      rcases hp with h | h
      · exact Or.inr (by simp [h])
      · rcases ih p h with h2 | h2
        · exact Or.inl h2
        · exact Or.inr (List.mem_cons_of_mem _ h2)

theorem mem_eraseKey {β : Type} (l : List (Nat × β)) (k : Nat) (p : Nat × β) :
    p ∈ eraseKey l k ↔ p ∈ l ∧ p.1 ≠ k := by
  simp [eraseKey, List.mem_filter]

/-!
Model of the RTCPeerConnection engine, the external collaborator the code
drives.  Only the signaling machinery this application exercises is kept:
the three signaling states it can reach (no provisional answers are ever
created by the code), setLocalDescription / setRemoteDescription following
the W3C signaling-state table (a description of a kind invalid for the
current state rejects with InvalidStateError), createAnswer (valid only
with a remote offer pending) and addIceCandidate (valid only once a remote
description is set).
-/

inductive SignalingState
  | stable
  | haveLocalOffer
  | haveRemoteOffer
deriving DecidableEq, Repr

inductive SdpType
  | offer
  | answer
deriving DecidableEq, Repr

structure SessionDescription where
  sdpType : SdpType
  sdp : String
deriving DecidableEq, Repr

inductive RTCErr
  | invalidState
deriving DecidableEq, Repr

structure PC where
  signalingState : SignalingState
  localDesc : Option SessionDescription
  remoteDesc : Option SessionDescription
  iceApplied : List Nat
deriving DecidableEq, Repr

def freshPC : PC :=
  { signalingState := .stable, localDesc := none, remoteDesc := none, iceApplied := [] }

def setLocalDescription (pc : PC) (d : SessionDescription) : Except RTCErr PC :=
  match d.sdpType, pc.signalingState with
  | .offer, .stable =>
    .ok { pc with signalingState := .haveLocalOffer, localDesc := some d }
  | .offer, .haveLocalOffer =>
    .ok { pc with signalingState := .haveLocalOffer, localDesc := some d }
  | .answer, .haveRemoteOffer =>
    .ok { pc with signalingState := .stable, localDesc := some d }
  | _, _ => .error .invalidState

def setRemoteDescription (pc : PC) (d : SessionDescription) : Except RTCErr PC :=
  match d.sdpType, pc.signalingState with
  | .offer, .stable =>
    .ok { pc with signalingState := .haveRemoteOffer, remoteDesc := some d }
  | .offer, .haveRemoteOffer =>
    .ok { pc with signalingState := .haveRemoteOffer, remoteDesc := some d }
  | .answer, .haveLocalOffer =>
    .ok { pc with signalingState := .stable, remoteDesc := some d }
  | _, _ => .error .invalidState

def answerSdpText : String := "answer-sdp"

def createAnswer (pc : PC) : Except RTCErr SessionDescription :=
  if pc.signalingState = .haveRemoteOffer then
    .ok { sdpType := .answer, sdp := answerSdpText }
  else .error .invalidState

def addIceCandidate (pc : PC) (c : Nat) : Except RTCErr PC :=
  if pc.remoteDesc.isSome then .ok { pc with iceApplied := pc.iceApplied ++ [c] }
  else .error .invalidState

/-!
The signaling-facing part of WebRTCClient: the peer-connection map, the
candidate messages re-scheduled on timers by handleIceCandidate (first
variant), and the messages emitted on the socket.
-/

inductive OutMsg
  | offerOut (targetId : Nat) (d : SessionDescription) (streamType : String)
  | answerOut (targetId : Nat) (d : SessionDescription) (streamType : String)
  | iceOut (targetId : Nat) (c : Nat)
deriving DecidableEq, Repr

structure SigClient where
  peerConnections : List (Nat × PC)
  pendingIce : List (Nat × Nat)
  outMsgs : List OutMsg
deriving DecidableEq, Repr

def setPeer (s : SigClient) (id : Nat) (pc : PC) : SigClient :=
  { s with peerConnections := setKey s.peerConnections id pc }

/-- Body of WebRTCClient.handleOffer after the lookup (lines 1285-1296):
apply the remote offer to the connection pc, create and apply a local
answer and emit it; a rejection from any engine call propagates to the
enclosing try/catch, which logs it and leaves the remaining steps
unexecuted (mutations already performed are kept, exactly as in the
imperative source). -/
def handleOfferCore (s : SigClient) (fromId : Nat) (pc : PC)
    (offer : SessionDescription) (streamType : String) : SigClient :=
  match setRemoteDescription pc offer with
  | .error _ => s
  | .ok pcA =>
    let s2 := setPeer s fromId pcA
    match createAnswer pcA with
    | .error _ => s2
    | .ok ans =>
      match setLocalDescription pcA ans with
      | .error _ => s2
      | .ok pcB =>
        let s3 := setPeer s2 fromId pcB
        { s3 with outMsgs := s3.outMsgs ++ [.answerOut fromId ans streamType] }

/-- Embedding of WebRTCClient.handleOffer (src/unnamed/part_000, lines
1275-1302): look the sender up, creating and registering a fresh
connection when absent, then run the offer/answer body on it. -/
def handleOffer1 (s : SigClient) (fromId : Nat) (offer : SessionDescription)
    (streamType : String) : SigClient :=
  match lookupKey s.peerConnections fromId with
  | some pc => handleOfferCore s fromId pc offer streamType
  | none => handleOfferCore (setPeer s fromId freshPC) fromId freshPC offer streamType

/-- Embedding of WebRTCClient.handleAnswer, first variant (lines 1304-1318):
the answer is applied only when a connection for the sender exists and its
signaling state is have-local-offer. -/
def handleAnswer1 (s : SigClient) (fromId : Nat) (answer : SessionDescription) : SigClient :=
  match lookupKey s.peerConnections fromId with
  | some pc =>
    if pc.signalingState = .haveLocalOffer then
      match setRemoteDescription pc answer with
      | .ok pc2 => setPeer s fromId pc2
      | .error _ => s
    else s
  | none => s

/-- Embedding of WebRTCClient.handleAnswer, second variant (lines 1936-1947):
no signaling-state guard, the engine call itself rejects a mis-timed answer
and the try/catch swallows the error. -/
def handleAnswer2 (s : SigClient) (fromId : Nat) (answer : SessionDescription) : SigClient :=
  match lookupKey s.peerConnections fromId with
  | some pc =>
    match setRemoteDescription pc answer with
    | .ok pc2 => setPeer s fromId pc2
    | .error _ => s
  | none => s

/-- Embedding of WebRTCClient.handleIceCandidate, first variant (lines
1320-1335): apply the candidate when the connection exists and its remote
description is set, otherwise re-schedule the whole message on a 500 ms
timer (modelled by the pendingIce queue). -/
def handleIceCandidate1 (s : SigClient) (fromId : Nat) (c : Nat) : SigClient :=
  match lookupKey s.peerConnections fromId with
  | some pc =>
    if pc.remoteDesc.isSome then
      match addIceCandidate pc c with
      | .ok pc2 => setPeer s fromId pc2
      | .error _ => s
    else { s with pendingIce := s.pendingIce ++ [(fromId, c)] }
  | none => { s with pendingIce := s.pendingIce ++ [(fromId, c)] }

/-- Claim C2: an inbound answer is applied to a peer's connection only when
the local side has an outstanding local offer for that peer (signaling state
have-local-offer, i.e. it is the initiator awaiting exactly this answer);
an answer for an unknown peer, or for a peer with no outstanding local
offer (stale or duplicate), is discarded and the client state is left
completely unchanged.  This holds for both source variants of
handleAnswer: the first by its explicit guard, the second because the
engine rejects the description and the catch swallows the error. -/
theorem answer_applied_iff_awaiting_local_offer
    (s : SigClient) (fromId : Nat) (d : SessionDescription)
    (hd : d.sdpType = .answer) :
    (lookupKey s.peerConnections fromId = none →
      handleAnswer1 s fromId d = s ∧ handleAnswer2 s fromId d = s)
    ∧ (∀ pc, lookupKey s.peerConnections fromId = some pc →
        pc.signalingState ≠ .haveLocalOffer →
        handleAnswer1 s fromId d = s ∧ handleAnswer2 s fromId d = s)
    ∧ (∀ pc, lookupKey s.peerConnections fromId = some pc →
        pc.signalingState = .haveLocalOffer →
        handleAnswer1 s fromId d
          = setPeer s fromId { pc with signalingState := .stable, remoteDesc := some d }
        ∧ handleAnswer2 s fromId d
          = setPeer s fromId { pc with signalingState := .stable, remoteDesc := some d }) := by
  refine ⟨?_, ?_, ?_⟩
  · intro h
    constructor
    · simp [handleAnswer1, h]
    · simp [handleAnswer2, h]
  · intro pc hpc hst
    constructor
    · simp [handleAnswer1, hpc, hst]
    · cases hs : pc.signalingState with
      | stable => simp [handleAnswer2, hpc, setRemoteDescription, hd, hs]
      | haveLocalOffer => exact absurd hs hst
      | haveRemoteOffer => simp [handleAnswer2, hpc, setRemoteDescription, hd, hs]
  · intro pc hpc hst
    constructor
    · simp [handleAnswer1, hpc, hst, setRemoteDescription, hd]
    · simp [handleAnswer2, hpc, hst, setRemoteDescription, hd]

def offerFromPeerTwo : SessionDescription := { sdpType := .offer, sdp := "sdp-offer-2" }

def pcAwaitingAnswer : PC :=
  { signalingState := .haveLocalOffer
    localDesc := some { sdpType := .offer, sdp := "sdp-offer-1" }
    remoteDesc := none
    iceApplied := [] }

def glareClientSmall : SigClient :=
  { peerConnections := [(2, pcAwaitingAnswer)], pendingIce := [], outMsgs := [] }

def cameraType : String := "camera"

/-- Claim C2 witness: a concrete stale answer (connection already stable)
is discarded without any state change. -/
theorem answer_applied_iff_awaiting_local_offer_witness :
    handleAnswer1 { peerConnections := [(2, freshPC)], pendingIce := [], outMsgs := [] } 2
        { sdpType := .answer, sdp := answerSdpText }
      = { peerConnections := [(2, freshPC)], pendingIce := [], outMsgs := [] }
    ∧ handleAnswer2 { peerConnections := [(2, freshPC)], pendingIce := [], outMsgs := [] } 2
        { sdpType := .answer, sdp := answerSdpText }
      = { peerConnections := [(2, freshPC)], pendingIce := [], outMsgs := [] } :=
  (answer_applied_iff_awaiting_local_offer
      { peerConnections := [(2, freshPC)], pendingIce := [], outMsgs := [] } 2
      { sdpType := .answer, sdp := answerSdpText } rfl).2.1
    freshPC (by decide) (by decide)

/-- Claim C3 counterexample: the code has no ID tie-break for glare.  The
side with the numerically smaller participant ID (here 1), holding an
outstanding local offer toward peer 2, receives peer 2's simultaneous
offer: the claim says this side becomes the answerer and applies the
offer, but handleOffer leaves the session completely unchanged (the engine
rejects a remote offer in the have-local-offer state and the catch
swallows it) and emits no answer. -/
theorem glare_smaller_id_drops_offer :
    (1 : Nat) < 2
    ∧ handleOffer1 glareClientSmall 2 offerFromPeerTwo cameraType = glareClientSmall
    ∧ (handleOffer1 glareClientSmall 2 offerFromPeerTwo cameraType).outMsgs = [] := by
  refine ⟨by decide, ?_, ?_⟩ <;> rfl

/-- Claim C3 amended: the code performs no ID-based tie-break at all.  On
either side of a glare — whichever participant ID is smaller — an inbound
offer for a peer whose connection already has an outstanding local offer is
dropped: the engine rejects it, the catch swallows the error, the client
state is unchanged and no answer is emitted.  Hence in a glare no
offer/answer pair is applied between the two peers. -/
theorem glare_offer_dropped_regardless_of_id
    (s : SigClient) (fromId : Nat) (pc : PC) (d : SessionDescription) (st : String)
    (hpc : lookupKey s.peerConnections fromId = some pc)
    (hstate : pc.signalingState = .haveLocalOffer)
    (hd : d.sdpType = .offer) :
    handleOffer1 s fromId d st = s := by
  simp [handleOffer1, handleOfferCore, hpc, setRemoteDescription, hd, hstate]

/-- Claim C3 amended witness: the glare scenario on the larger-ID side
behaves identically — the stray offer is dropped there as well. -/
theorem glare_offer_dropped_regardless_of_id_witness :
    handleOffer1 { peerConnections := [(1, pcAwaitingAnswer)], pendingIce := [], outMsgs := [] } 1
        { sdpType := .offer, sdp := "sdp-offer-1b" } cameraType
      = { peerConnections := [(1, pcAwaitingAnswer)], pendingIce := [], outMsgs := [] } :=
  glare_offer_dropped_regardless_of_id
    { peerConnections := [(1, pcAwaitingAnswer)], pendingIce := [], outMsgs := [] } 1
    pcAwaitingAnswer { sdpType := .offer, sdp := "sdp-offer-1b" } cameraType
    (by decide) (by decide) rfl

/-!
Single-peer projection of the candidate path of handleIceCandidate (first
variant, lines 1320-1335), with the timer callbacks made explicit so that
arbitrary interleavings of candidate arrival, remote-description arrival,
timer firings and session closure can be examined.  connExists is the
peer's membership in this.peerConnections, remoteDescSet the presence of
its remote description, applied the candidates passed to addIceCandidate
in order, pending the messages currently re-scheduled on 500 ms timers
(fired in schedule order).
-/

structure IceState where
  connExists : Bool
  remoteDescSet : Bool
  applied : List Nat
  pending : List Nat
deriving DecidableEq, Repr

/-- Per-message body of handleIceCandidate: apply when the connection exists
and its remote description is set, otherwise re-schedule the message. -/
def iceHandle (s : IceState) (c : Nat) : IceState :=
  if s.connExists ∧ s.remoteDescSet then { s with applied := s.applied ++ [c] }
  else { s with pending := s.pending ++ [c] }

inductive IceEv
  | recv (c : Nat)
  | fire
  | setRemote
  | closePeer
deriving DecidableEq, Repr

def iceStep (s : IceState) : IceEv → IceState
  | .recv c => iceHandle s c
  | .fire =>
    match s.pending with
    | [] => s
    | c :: rest => iceHandle { s with pending := rest } c
  | .setRemote => { s with remoteDescSet := true }
  | .closePeer => { s with connExists := false }

def iceRun (s : IceState) : List IceEv → IceState
  | [] => s
  | e :: es => iceRun (iceStep s e) es

def recvList : List IceEv → List Nat
  | [] => []
  | .recv c :: es => c :: recvList es
  | .fire :: es => recvList es
  | .setRemote :: es => recvList es
  | .closePeer :: es => recvList es

def iceStart : IceState :=
  { connExists := true, remoteDescSet := false, applied := [], pending := [] }

/-- Claim C1 counterexample.  First trace: candidate 1 arrives before the
remote description and is re-scheduled, candidate 2 arrives after it and is
applied immediately, then the timer fires — candidates were received in
order [1, 2] but applied in order [2, 1].  Second trace: the session is
closed before the remote description is set and a candidate arrives — the
message is re-scheduled forever (still pending after timer firings), not
discarded. -/
theorem iceRetry_breaks_receipt_order_and_discard :
    recvList [IceEv.recv 1, .setRemote, .recv 2, .fire] = [1, 2]
    ∧ (iceRun iceStart [IceEv.recv 1, .setRemote, .recv 2, .fire]).applied = [2, 1]
    ∧ ([2, 1] : List Nat) ≠ [1, 2]
    ∧ (iceRun { iceStart with connExists := false }
        [IceEv.recv 7, .fire, .fire]).applied = []
    ∧ (iceRun { iceStart with connExists := false }
        [IceEv.recv 7, .fire, .fire]).pending = [7] := by
  refine ⟨rfl, rfl, by decide, rfl, rfl⟩

theorem iceHandle_count (s : IceState) (c d : Nat) :
    (iceHandle s d).applied.count c + (iceHandle s d).pending.count c
      = s.applied.count c + s.pending.count c + [d].count c := by
  unfold iceHandle
  split <;> simp [List.count_append] <;> omega

theorem count_cons_split (c d : Nat) (l : List Nat) :
    List.count c (d :: l) = List.count c [d] + List.count c l := by
  rw [show d :: l = [d] ++ l from rfl, List.count_append]

theorem iceRun_count (evs : List IceEv) (s : IceState) (c : Nat) :
    (iceRun s evs).applied.count c + (iceRun s evs).pending.count c
      = s.applied.count c + s.pending.count c + (recvList evs).count c := by
  induction evs generalizing s with
  | nil => simp [iceRun, recvList]
  | cons e es ih =>
    simp only [iceRun]
    cases e with
    | recv d =>
      have h1 := ih (iceHandle s d)
      have h2 := iceHandle_count s c d
      simp only [iceStep]
      rw [h1]
      simp only [recvList]
      rw [count_cons_split]
      omega
    | fire =>
      cases hp : s.pending with
      | nil =>
        have h1 := ih s
        simp only [iceStep, hp]
        simp only [recvList]
        rw [hp] at h1
        exact h1
      | cons d rest =>
        have h1 := ih (iceHandle { s with pending := rest } d)
        have h2 := iceHandle_count { s with pending := rest } c d
        simp only [iceStep, hp]
        rw [h1]
        simp only [recvList]
        rw [count_cons_split c d rest]
        dsimp only at h2
        omega
    | setRemote =>
      have h1 := ih { s with remoteDescSet := true }
      simp only [iceStep]
      rw [h1]
      simp [recvList]
    | closePeer =>
      have h1 := ih { s with connExists := false }
      simp only [iceStep]
      rw [h1]
      simp [recvList]

theorem iceRun_no_apply_without_remote (evs : List IceEv) (s : IceState)
    (hr : s.remoteDescSet = false) (hev : IceEv.setRemote ∉ evs) :
    (iceRun s evs).applied = s.applied ∧ (iceRun s evs).remoteDescSet = false := by
  induction evs generalizing s with
  | nil => exact ⟨rfl, hr⟩
  | cons e es ih =>
    have hev2 : IceEv.setRemote ∉ es := fun h => hev (List.mem_cons_of_mem _ h)
    cases e with
    | recv d =>
      have hstep : iceStep s (.recv d) = { s with pending := s.pending ++ [d] } := by
        simp [iceStep, iceHandle, hr]
      rw [iceRun, hstep]
      exact ih _ hr hev2
    | fire =>
      cases hp : s.pending with
      | nil =>
        rw [iceRun]
        simp only [iceStep, hp]
        exact ih s hr hev2
      | cons d rest =>
        have hstep : iceStep s .fire = { s with pending := rest ++ [d] } := by
          simp [iceStep, hp, iceHandle, hr]
        rw [iceRun, hstep]
        exact ih _ hr hev2
    | setRemote => exact absurd (List.mem_cons_self _ _) hev
    | closePeer =>
      rw [iceRun]
      simp only [iceStep]
      exact ih _ hr hev2

theorem iceRun_closed_never_applies (evs : List IceEv) (s : IceState)
    (hc : s.connExists = false) :
    (iceRun s evs).applied = s.applied ∧ (iceRun s evs).connExists = false := by
  induction evs generalizing s with
  | nil => exact ⟨rfl, hc⟩
  | cons e es ih =>
    cases e with
    | recv d =>
      have hstep : iceStep s (.recv d) = { s with pending := s.pending ++ [d] } := by
        simp [iceStep, iceHandle, hc]
      rw [iceRun, hstep]
      exact ih _ hc
    | fire =>
      cases hp : s.pending with
      | nil =>
        rw [iceRun]
        simp only [iceStep, hp]
        exact ih s hc
      | cons d rest =>
        have hstep : iceStep s .fire = { s with pending := rest ++ [d] } := by
          simp [iceStep, hp, iceHandle, hc]
        rw [iceRun, hstep]
        exact ih _ hc
    | setRemote =>
      rw [iceRun]
      simp only [iceStep]
      exact ih _ hc
    | closePeer =>
      rw [iceRun]
      simp only [iceStep]
      exact ih _ rfl

/-- Claim C1 amended: under every interleaving of candidate arrivals,
timer firings, remote-description arrival and session closure,
(1) candidates are conserved — at any point each candidate value is split
between the applied list and the retry queue exactly according to how often
it was received, so each received message is applied at most once and a
message not yet applicable stays queued rather than being lost or
duplicated; (2) while the remote description has never been set no
candidate is ever applied; (3) once the session is closed (before its
remote description was set) candidates are never applied and never
discarded — they remain re-scheduled indefinitely.  Receipt ORDER is not
preserved (see the counterexample), and closed-session candidates are
retried rather than discarded. -/
theorem iceCandidate_conservation_and_guard (evs : List IceEv) (s : IceState) (c : Nat) :
    ((iceRun s evs).applied.count c + (iceRun s evs).pending.count c
      = s.applied.count c + s.pending.count c + (recvList evs).count c)
    ∧ (s.remoteDescSet = false → IceEv.setRemote ∉ evs →
        (iceRun s evs).applied = s.applied)
    ∧ (s.connExists = false →
        (iceRun s evs).applied = s.applied ∧ (iceRun s evs).connExists = false) :=
  ⟨iceRun_count evs s c,
   fun hr hev => (iceRun_no_apply_without_remote evs s hr hev).1,
   fun hc => iceRun_closed_never_applies evs s hc⟩

/-- Claim C1 amended witness: concrete trace with one early candidate —
conservation holds, and nothing is applied while the remote description
is missing. -/
theorem iceCandidate_conservation_and_guard_witness :
    ((iceRun iceStart [IceEv.recv 3, .fire]).applied.count 3
        + (iceRun iceStart [IceEv.recv 3, .fire]).pending.count 3
      = iceStart.applied.count 3 + iceStart.pending.count 3
        + (recvList [IceEv.recv 3, .fire]).count 3)
    ∧ (iceRun iceStart [IceEv.recv 3, .fire]).applied = iceStart.applied :=
  ⟨(iceCandidate_conservation_and_guard [IceEv.recv 3, .fire] iceStart 3).1,
   (iceCandidate_conservation_and_guard [IceEv.recv 3, .fire] iceStart 3).2.1
     rfl (by decide)⟩

/-!
Connection-state / grace-timer model for a single peer.  connState is the
engine's connectionState, inMap the peer's membership in the orchestrator
map (this.peerConnections), checks the deadlines (in ms) of the setTimeout
callbacks scheduled by the state-change handler, fired in schedule order.
-/

inductive ConnState
  | newConn
  | connecting
  | connected
  | disconnected
  | failed
  | closed
deriving DecidableEq, Repr

structure TimedPeer where
  connState : ConnState
  inMap : Bool
  checks : List Nat
deriving DecidableEq, Repr

/-- Embedding of the onconnectionstatechange handler of the first variant
(lines 1197-1212): entering disconnected, failed or closed schedules a
check 5000 ms later; other states only update the recorded state. -/
def onStateChange1 (now : Nat) (s : TimedPeer) (st : ConnState) : TimedPeer :=
  if st = .disconnected ∨ st = .failed ∨ st = .closed then
    { connState := st, inMap := s.inMap, checks := s.checks ++ [now + 5000] }
  else
    { s with connState := st }

/-- Embedding of the setTimeout callback body of the first variant (lines
1202-1208): when a scheduled check fires, the peer is closed and evicted
from the map only if its connection state at that moment is failed. -/
def fireCheck1 (s : TimedPeer) : TimedPeer :=
  match s.checks with
  | [] => s
  | _ :: rest =>
    if s.connState = .failed then
      { connState := .closed, inMap := false, checks := rest }
    else
      { s with checks := rest }

/-- Embedding of the onconnectionstatechange handler of the second variant
(lines 1858-1866): disconnected or failed closes the peer immediately,
with no grace timer at all. -/
def onStateChange2 (s : TimedPeer) (st : ConnState) : TimedPeer :=
  if st = .disconnected ∨ st = .failed then
    { connState := .closed, inMap := false, checks := s.checks }
  else
    { s with connState := st }

/-- Claim C5 counterexample: a session that enters Disconnected at t = 0
and never recovers (its connection state is still disconnected, not
failed, when the 5-second timer fires) is NOT closed at t = 5 s: the check
fires, finds a non-failed state, and leaves the session in the
orchestrator map. -/
theorem disconnected_not_closed_at_timer :
    (onStateChange1 0 { connState := .connected, inMap := true, checks := [] }
        .disconnected).checks = [5000]
    ∧ (fireCheck1 (onStateChange1 0 { connState := .connected, inMap := true, checks := [] }
        .disconnected)).inMap = true
    ∧ (fireCheck1 (onStateChange1 0 { connState := .connected, inMap := true, checks := [] }
        .disconnected)).connState = .disconnected := by
  refine ⟨rfl, rfl, rfl⟩

/-- Claim C5 amended: in the first variant, entering disconnected, failed
or closed at time t schedules a check at t + 5000 ms (and nothing is
closed at entry); when a check fires, the session is closed and evicted
from the orchestrator map exactly when its connection state at that moment
is failed — a session still merely disconnected is left in place
indefinitely, and a recovered session stays because the (never-cancelled)
check observes a non-failed state and does nothing.  In the second variant
there is no grace period at all: disconnected or failed closes and evicts
the session immediately. -/
theorem grace_timer_closes_only_failed (now : Nat) (s : TimedPeer) (st : ConnState)
    (c : Nat) (rest : List Nat) :
    ((st = .disconnected ∨ st = .failed ∨ st = .closed) →
      onStateChange1 now s st
        = { connState := st, inMap := s.inMap, checks := s.checks ++ [now + 5000] })
    ∧ (¬(st = .disconnected ∨ st = .failed ∨ st = .closed) →
      onStateChange1 now s st = { s with connState := st })
    ∧ (s.checks = c :: rest →
      ((fireCheck1 s).inMap = false ↔ s.connState = .failed ∨ s.inMap = false))
    ∧ (s.checks = c :: rest → s.connState = .failed →
      fireCheck1 s = { connState := .closed, inMap := false, checks := rest })
    ∧ (s.checks = c :: rest → s.connState ≠ .failed →
      fireCheck1 s = { s with checks := rest })
    ∧ ((st = .disconnected ∨ st = .failed) →
      onStateChange2 s st = { connState := .closed, inMap := false, checks := s.checks }) := by
  refine ⟨?_, ?_, ?_, ?_, ?_, ?_⟩
  · intro h
    simp [onStateChange1, h]
  · intro h
    simp [onStateChange1, h]
  · intro hc
    by_cases hf : s.connState = .failed
    · simp [fireCheck1, hc, hf]
    · simp [fireCheck1, hc, hf]
  · intro hc hf
    simp [fireCheck1, hc, hf]
  · intro hc hf
    simp [fireCheck1, hc, hf]
  · intro h
    simp [onStateChange2, h]

/-- Claim C5 amended witness: a session failed at the moment the check
fires is closed and evicted; applied at a concrete state. -/
theorem grace_timer_closes_only_failed_witness :
    fireCheck1 { connState := .failed, inMap := true, checks := [5000] }
      = { connState := .closed, inMap := false, checks := [] } :=
  (grace_timer_closes_only_failed 0
      { connState := .failed, inMap := true, checks := [5000] }
      .failed 5000 []).2.2.2.1 rfl rfl

/-!
Screen-share track replacement.  A SharePeer records, for one entry of
this.peerConnections in iteration order: whether getSenders() finds a
video sender, whether the environment makes replaceTrack reject for this
peer, and the track its video sender currently carries.
-/

structure SharePeer where
  pid : Nat
  hasVideoSender : Bool
  replaceFails : Bool
  videoTrack : Nat
deriving DecidableEq, Repr

/-- Embedding of the per-peer replaceTrack loop of startScreenShare (first
variant, lines 1524-1535): iterate the peer map in order and await
sender.replaceTrack for each peer with a video sender; a rejection
propagates out of the for-loop to the enclosing catch, so the failing peer
and every peer after it keep their previous track. -/
def replaceTrackAll : List SharePeer → Nat → List SharePeer × Bool
  | [], _ => ([], true)
  | p :: rest, t =>
    if p.hasVideoSender then
      if p.replaceFails then (p :: rest, false)
      else
        let r := replaceTrackAll rest t
        ({ p with videoTrack := t } :: r.1, r.2)
    else
      let r := replaceTrackAll rest t
      (p :: r.1, r.2)

structure ShareState where
  peers : List SharePeer
  isScreenSharing : Bool
  shareNotices : List Bool
deriving DecidableEq, Repr

/-- Embedding of WebRTCClient.startScreenShare (first variant, lines
1515-1553).  acquireOk models whether getScreenStream resolves (the user
may cancel the OS picker).  On any rejection the catch returns false: the
sharing flag is not set and no share notice is emitted, but peers already
mutated by the loop keep the new track. -/
def startScreenShare1 (s : ShareState) (screenTrack : Nat) (acquireOk : Bool) :
    ShareState × Bool :=
  if s.isScreenSharing then (s, false)
  else if acquireOk = false then (s, false)
  else
    let r := replaceTrackAll s.peers screenTrack
    if r.2 then
      ({ peers := r.1, isScreenSharing := true, shareNotices := s.shareNotices ++ [true] },
       true)
    else
      ({ s with peers := r.1 }, false)

/-- Result of a successful per-peer replacement. -/
def applyReplace (t : Nat) (p : SharePeer) : SharePeer :=
  if p.hasVideoSender then { p with videoTrack := t } else p

theorem replaceTrackAll_success (l : List SharePeer) (t : Nat)
    (h : ∀ p ∈ l, p.hasVideoSender = true → p.replaceFails = false) :
    replaceTrackAll l t = (l.map (applyReplace t), true) := by
  induction l with
  | nil => simp [replaceTrackAll]
  | cons p rest ih =>
    have hrest : ∀ q ∈ rest, q.hasVideoSender = true → q.replaceFails = false :=
      fun q hq => h q (List.mem_cons_of_mem _ hq)
    by_cases hv : p.hasVideoSender
    · have hf : p.replaceFails = false := h p (List.mem_cons_self _ _) hv
      simp [replaceTrackAll, hv, hf, ih hrest, applyReplace]
    · simp [replaceTrackAll, hv, ih hrest, applyReplace]

theorem replaceTrackAll_abort (l : List SharePeer) (q : SharePeer) (r : List SharePeer)
    (t : Nat)
    (hl : ∀ p ∈ l, p.hasVideoSender = true → p.replaceFails = false)
    (hq1 : q.hasVideoSender = true) (hq2 : q.replaceFails = true) :
    replaceTrackAll (l ++ q :: r) t = (l.map (applyReplace t) ++ q :: r, false) := by
  induction l with
  | nil => simp [replaceTrackAll, hq1, hq2]
  | cons p rest ih =>
    have hrest : ∀ x ∈ rest, x.hasVideoSender = true → x.replaceFails = false :=
      fun x hx => hl x (List.mem_cons_of_mem _ hx)
    have ihr := ih hrest
    by_cases hv : p.hasVideoSender
    · have hf : p.replaceFails = false := hl p (List.mem_cons_self _ _) hv
      simp [replaceTrackAll, hv, hf, ihr, applyReplace]
    · simp [replaceTrackAll, hv, ihr, applyReplace]

def shareFailPeer : SharePeer :=
  { pid := 1, hasVideoSender := true, replaceFails := true, videoTrack := 100 }

def shareOkPeer : SharePeer :=
  { pid := 2, hasVideoSender := true, replaceFails := false, videoTrack := 100 }

def shareOkPeerB : SharePeer :=
  { pid := 3, hasVideoSender := true, replaceFails := false, videoTrack := 100 }

/-- Claim C4 counterexample: two peers, both with video senders; the first
peer's replaceTrack rejects.  The claim says the second peer is still
attempted (it would succeed) and a per-peer result set is returned; the
code instead aborts — the second peer keeps its previous track 100 — and
the whole operation returns the single boolean false. -/
theorem screenShare_aborts_at_first_failure :
    startScreenShare1
        { peers := [shareFailPeer, shareOkPeer], isScreenSharing := false, shareNotices := [] }
        7 true
      = ({ peers := [shareFailPeer, shareOkPeer], isScreenSharing := false,
           shareNotices := [] }, false)
    ∧ ((startScreenShare1
        { peers := [shareFailPeer, shareOkPeer], isScreenSharing := false, shareNotices := [] }
        7 true).1.peers.map SharePeer.videoTrack) = [100, 100] := by
  refine ⟨rfl, rfl⟩

/-- Claim C4 amended: startScreenShare replaces the video track peer by
peer in map-iteration order but stops at the first failing peer.  When
every peer with a video sender succeeds, all of them carry the new track,
the sharing flag is set and exactly one share notice is emitted, and the
call returns true.  When some sender-peer fails, the peers before the
first failing one carry the new track, the failing peer and every peer
after it keep their previous track (they are never attempted), the sharing
flag stays false, no notice is emitted, and the call returns the single
boolean false — no per-peer result set exists. -/
theorem screenShare_sequential_abort_spec (s : ShareState) (t : Nat)
    (hs : s.isScreenSharing = false) :
    ((∀ p ∈ s.peers, p.hasVideoSender = true → p.replaceFails = false) →
      startScreenShare1 s t true
        = ({ peers := s.peers.map (applyReplace t), isScreenSharing := true,
             shareNotices := s.shareNotices ++ [true] }, true))
    ∧ (∀ l q r, s.peers = l ++ q :: r →
        (∀ p ∈ l, p.hasVideoSender = true → p.replaceFails = false) →
        q.hasVideoSender = true → q.replaceFails = true →
        startScreenShare1 s t true
          = ({ s with peers := l.map (applyReplace t) ++ q :: r }, false)) := by
  constructor
  · intro h
    simp [startScreenShare1, hs, replaceTrackAll_success s.peers t h]
  · intro l q r hsplit hl hq1 hq2
    simp [startScreenShare1, hs, hsplit, replaceTrackAll_abort l q r t hl hq1 hq2]

/-- Claim C4 amended witness: with a failing first peer and a healthy
second peer, the abort shape is reached at a concrete input. -/
theorem screenShare_sequential_abort_spec_witness :
    startScreenShare1
        { peers := [shareFailPeer, shareOkPeer], isScreenSharing := false, shareNotices := [] }
        7 true
      = ({ peers := ([] : List SharePeer).map (applyReplace 7) ++ shareFailPeer :: [shareOkPeer],
           isScreenSharing := false, shareNotices := [] }, false) :=
  (screenShare_sequential_abort_spec
      { peers := [shareFailPeer, shareOkPeer], isScreenSharing := false, shareNotices := [] }
      7 rfl).2 [] shareFailPeer [shareOkPeer] rfl (by simp) (by decide) (by decide)

/-!
Socket dispatch (setupEventListeners, lines 1110-1120): each inbound
signaling message is routed to its handler; every handler body sits in its
own try/catch, so handling one message always completes and the next
message is always processed.
-/

inductive NetMsg
  | offerIn (fromId : Nat) (d : SessionDescription) (streamType : String)
  | answerIn (fromId : Nat) (d : SessionDescription)
  | candidateIn (fromId : Nat) (c : Nat)
deriving DecidableEq, Repr

def msgPeer : NetMsg → Nat
  | .offerIn f _ _ => f
  | .answerIn f _ => f
  | .candidateIn f _ => f

def dispatchMsg (s : SigClient) : NetMsg → SigClient
  | .offerIn f d st => handleOffer1 s f d st
  | .answerIn f d => handleAnswer1 s f d
  | .candidateIn f c => handleIceCandidate1 s f c

def dispatchAll (s : SigClient) : List NetMsg → SigClient
  | [] => s
  | m :: ms => dispatchAll (dispatchMsg s m) ms

theorem handleOfferCore_frame (s : SigClient) (f : Nat) (pc : PC)
    (d : SessionDescription) (st : String) (q : Nat) (h : q ≠ f) :
    lookupKey (handleOfferCore s f pc d st).peerConnections q
      = lookupKey s.peerConnections q := by
  unfold handleOfferCore
  (repeat' split) <;> simp [setPeer, lookupKey_setKey_ne, h]

theorem handleOffer1_frame (s : SigClient) (f : Nat) (d : SessionDescription)
    (st : String) (q : Nat) (h : q ≠ f) :
    lookupKey (handleOffer1 s f d st).peerConnections q = lookupKey s.peerConnections q := by
  unfold handleOffer1
  cases hpc : lookupKey s.peerConnections f with
  | some pc => exact handleOfferCore_frame s f pc d st q h
  | none =>
    rw [handleOfferCore_frame _ f freshPC d st q h]
    simp [setPeer, lookupKey_setKey_ne, h]

theorem handleAnswer1_frame (s : SigClient) (f : Nat) (d : SessionDescription)
    (q : Nat) (h : q ≠ f) :
    lookupKey (handleAnswer1 s f d).peerConnections q = lookupKey s.peerConnections q := by
  unfold handleAnswer1
  cases hpc : lookupKey s.peerConnections f
  all_goals dsimp only
  all_goals repeat' split
  all_goals simp [setPeer, lookupKey_setKey_ne, h]

theorem handleIceCandidate1_frame (s : SigClient) (f : Nat) (c : Nat)
    (q : Nat) (h : q ≠ f) :
    lookupKey (handleIceCandidate1 s f c).peerConnections q
      = lookupKey s.peerConnections q := by
  unfold handleIceCandidate1
  cases hpc : lookupKey s.peerConnections f
  all_goals dsimp only
  all_goals repeat' split
  all_goals simp [setPeer, lookupKey_setKey_ne, h]

/-- Handling a message for one peer never changes any other peer's
connection entry. -/
theorem dispatch_frame (s : SigClient) (m : NetMsg) (q : Nat) (h : q ≠ msgPeer m) :
    lookupKey (dispatchMsg s m).peerConnections q = lookupKey s.peerConnections q := by
  cases m with
  | offerIn f d st => exact handleOffer1_frame s f d st q h
  | answerIn f d => exact handleAnswer1_frame s f d q h
  | candidateIn f c => exact handleIceCandidate1_frame s f c q h

theorem handleAnswer1_self (s t : SigClient) (f : Nat) (d : SessionDescription)
    (h : lookupKey s.peerConnections f = lookupKey t.peerConnections f) :
    lookupKey (handleAnswer1 s f d).peerConnections f
      = lookupKey (handleAnswer1 t f d).peerConnections f := by
  unfold handleAnswer1
  rw [← h]
  cases hpc : lookupKey s.peerConnections f with
  | none => exact h
  | some pc =>
    dsimp only
    by_cases hst : pc.signalingState = .haveLocalOffer
    · simp only [if_pos hst]
      cases hrd : setRemoteDescription pc d with
      | ok pc2 => simp [setPeer, lookupKey_setKey_self]
      | error e => exact h
    · simp only [if_neg hst]
      exact h

theorem handleIceCandidate1_self (s t : SigClient) (f : Nat) (c : Nat)
    (h : lookupKey s.peerConnections f = lookupKey t.peerConnections f) :
    lookupKey (handleIceCandidate1 s f c).peerConnections f
      = lookupKey (handleIceCandidate1 t f c).peerConnections f := by
  unfold handleIceCandidate1
  rw [← h]
  cases hpc : lookupKey s.peerConnections f with
  | none => exact h
  | some pc =>
    dsimp only
    by_cases hrd : pc.remoteDesc.isSome
    · simp only [if_pos hrd]
      cases hadd : addIceCandidate pc c with
      | ok pc2 => simp [setPeer, lookupKey_setKey_self]
      | error e => exact h
    · simp only [if_neg hrd]
      exact h

theorem handleOfferCore_self (s t : SigClient) (f : Nat) (pc : PC)
    (d : SessionDescription) (st : String)
    (h : lookupKey s.peerConnections f = lookupKey t.peerConnections f) :
    lookupKey (handleOfferCore s f pc d st).peerConnections f
      = lookupKey (handleOfferCore t f pc d st).peerConnections f := by
  unfold handleOfferCore
  cases hrd : setRemoteDescription pc d with
  | error e => exact h
  | ok pcA =>
    dsimp only
    cases hca : createAnswer pcA with
    | error e => simp [setPeer, lookupKey_setKey_self]
    | ok ans =>
      cases hld : setLocalDescription pcA ans with
      | error e => simp [hld, setPeer, lookupKey_setKey_self]
      | ok pcB => simp [hld, setPeer, lookupKey_setKey_self]

theorem handleOffer1_self (s t : SigClient) (f : Nat) (d : SessionDescription)
    (st : String)
    (h : lookupKey s.peerConnections f = lookupKey t.peerConnections f) :
    lookupKey (handleOffer1 s f d st).peerConnections f
      = lookupKey (handleOffer1 t f d st).peerConnections f := by
  unfold handleOffer1
  rw [← h]
  cases hpc : lookupKey s.peerConnections f with
  | some pc => exact handleOfferCore_self s t f pc d st h
  | none =>
    refine handleOfferCore_self _ _ f freshPC d st ?_
    simp [setPeer, lookupKey_setKey_self]

/-- The effect of a message on its own peer's entry depends only on that
entry, not on the rest of the client state. -/
theorem dispatch_self (s t : SigClient) (m : NetMsg)
    (h : lookupKey s.peerConnections (msgPeer m) = lookupKey t.peerConnections (msgPeer m)) :
    lookupKey (dispatchMsg s m).peerConnections (msgPeer m)
      = lookupKey (dispatchMsg t m).peerConnections (msgPeer m) := by
  cases m with
  | offerIn f d st => exact handleOffer1_self s t f d st h
  | answerIn f d => exact handleAnswer1_self s t f d h
  | candidateIn f c => exact handleIceCandidate1_self s t f c h

theorem dispatchAll_self (msgs : List NetMsg) (q : Nat) (s t : SigClient)
    (hall : ∀ m ∈ msgs, msgPeer m = q)
    (h : lookupKey s.peerConnections q = lookupKey t.peerConnections q) :
    lookupKey (dispatchAll s msgs).peerConnections q
      = lookupKey (dispatchAll t msgs).peerConnections q := by
  induction msgs generalizing s t with
  | nil => exact h
  | cons m ms ih =>
    have hm : msgPeer m = q := hall m (List.mem_cons_self _ _)
    have hrec : ∀ x ∈ ms, msgPeer x = q := fun x hx => hall x (List.mem_cons_of_mem _ hx)
    simp only [dispatchAll]
    have hd := dispatch_self s t m (by rw [hm]; exact h)
    rw [hm] at hd
    exact ih (dispatchMsg s m) (dispatchMsg t m) hrec hd

theorem dispatchAll_isolation (msgs : List NetMsg) (s : SigClient) (q : Nat) :
    lookupKey (dispatchAll s msgs).peerConnections q
      = lookupKey (dispatchAll s (msgs.filter (fun m => msgPeer m == q))).peerConnections q := by
  induction msgs generalizing s with
  | nil => rfl
  | cons m ms ih =>
    by_cases hm : msgPeer m = q
    · have hfil : (m :: ms).filter (fun x => msgPeer x == q)
          = m :: ms.filter (fun x => msgPeer x == q) := by
        simp [List.filter_cons, hm]
      rw [hfil]
      simp only [dispatchAll]
      exact ih (dispatchMsg s m)
    · have hfil : (m :: ms).filter (fun x => msgPeer x == q)
          = ms.filter (fun x => msgPeer x == q) := by
        simp [List.filter_cons, hm]
      rw [hfil]
      simp only [dispatchAll]
      rw [ih (dispatchMsg s m)]
      refine dispatchAll_self _ q _ _ (fun x hx => ?_) ?_
      · simpa using (List.mem_filter.mp hx).2
      · exact dispatch_frame s m q (fun he => hm he.symm)

/-- Claim C7 amended: failures inside a per-message signaling handler are
contained — each peer's final connection entry depends only on the
messages addressed to that peer, so an error while handling one peer's
message (swallowed by that handler's try/catch) neither blocks later
messages nor affects any other session.  Track replacement, however, is
NOT isolated: a replaceTrack failure for one peer aborts the loop, so the
remaining peers are never attempted. -/
theorem message_isolation_and_replace_abort (s : SigClient) (msgs : List NetMsg) (q : Nat) :
    (lookupKey (dispatchAll s msgs).peerConnections q
      = lookupKey (dispatchAll s (msgs.filter (fun m => msgPeer m == q))).peerConnections q)
    ∧ (∀ (l : List SharePeer) (qq : SharePeer) (r : List SharePeer) (t : Nat),
        (∀ p ∈ l, p.hasVideoSender = true → p.replaceFails = false) →
        qq.hasVideoSender = true → qq.replaceFails = true →
        replaceTrackAll (l ++ qq :: r) t = (l.map (applyReplace t) ++ qq :: r, false)) :=
  ⟨dispatchAll_isolation msgs s q,
   fun l qq r t hl h1 h2 => replaceTrackAll_abort l qq r t hl h1 h2⟩

/-- Claim C7 counterexample (the spec's own three-peer scenario): peers 2,
1, 3 in iteration order with peer 1's replaceTrack failing.  Peer 2 (before
the failure) gets the new track 7, but peer 3 — a different, healthy
session — is left on track 100: the failure on one peer's session
prevented progress on another's. -/
theorem replace_failure_blocks_third_peer :
    ((startScreenShare1
        { peers := [shareOkPeer, shareFailPeer, shareOkPeerB],
          isScreenSharing := false, shareNotices := [] } 7 true).1.peers.map
        SharePeer.videoTrack) = [7, 100, 100]
    ∧ (startScreenShare1
        { peers := [shareOkPeer, shareFailPeer, shareOkPeerB],
          isScreenSharing := false, shareNotices := [] } 7 true).2 = false := by
  refine ⟨rfl, rfl⟩

/-- Claim C7 amended witness: the replacement-abort conjunct at a concrete
three-peer input. -/
theorem message_isolation_and_replace_abort_witness :
    replaceTrackAll ([shareOkPeer] ++ shareFailPeer :: [shareOkPeerB]) 7
      = ([shareOkPeer].map (applyReplace 7) ++ shareFailPeer :: [shareOkPeerB], false) :=
  (message_isolation_and_replace_abort
      { peerConnections := [], pendingIce := [], outMsgs := [] } [] 0).2
    [shareOkPeer] shareFailPeer [shareOkPeerB] 7 (by decide) (by decide) (by decide)

/-!
Session lifecycle: creation on participant-joined and teardown.  A session
is identified by the serial number of the RTCPeerConnection object created
for it (each `new RTCPeerConnection` allocates a distinct object; serials
model object identity).  sessions is this.peerConnections as a map from
participant ID to that serial; closedSerials records the objects whose
close() has run; nextSerial is the allocation counter.
-/

structure Orch where
  sessions : List (Nat × Nat)
  closedSerials : List Nat
  nextSerial : Nat
deriving DecidableEq, Repr

/-- Embedding of createPeerConnection (lines 1168-1171, called from
handleParticipantJoined): allocate a fresh connection object and store it
under the peer ID (Map.set replaces any existing entry). -/
def createPeerConnectionO (s : Orch) (id : Nat) : Orch :=
  { sessions := setKey s.sessions id s.nextSerial
    closedSerials := s.closedSerials
    nextSerial := s.nextSerial + 1 }

/-- Embedding of closePeerConnection (lines 1602-1615): when an entry for
the peer exists, close the connection object and delete the map entry;
otherwise do nothing. -/
def closePeerConnectionO (s : Orch) (id : Nat) : Orch :=
  match lookupKey s.sessions id with
  | some k =>
    { sessions := eraseKey s.sessions id
      closedSerials := s.closedSerials ++ [k]
      nextSerial := s.nextSerial }
  | none => s

inductive OrchOp
  | joined (id : Nat)
  | left (id : Nat)
deriving DecidableEq, Repr

def orchStep (s : Orch) : OrchOp → Orch
  | .joined id => createPeerConnectionO s id
  | .left id => closePeerConnectionO s id

def orchRun (s : Orch) : List OrchOp → Orch
  | [] => s
  | op :: ops => orchRun (orchStep s op) ops

def orchInit : Orch := { sessions := [], closedSerials := [], nextSerial := 0 }

def OrchInv (s : Orch) : Prop :=
  (s.sessions.map Prod.fst).Nodup
  ∧ (s.sessions.map Prod.snd).Nodup
  ∧ (∀ p ∈ s.sessions, p.2 < s.nextSerial)
  ∧ (∀ k ∈ s.closedSerials, k < s.nextSerial)
  ∧ (∀ p ∈ s.sessions, p.2 ∉ s.closedSerials)

theorem keys_setKey_subset {β : Type} (l : List (Nat × β)) (k : Nat) (v : β) (d : Nat)
    (hd : d ∈ (setKey l k v).map Prod.fst) : d = k ∨ d ∈ l.map Prod.fst := by
  rcases List.mem_map.mp hd with ⟨p, hp, hpd⟩
  rcases mem_setKey l k v p hp with h | h
  · left
    rw [← hpd, h]
  · right
    exact List.mem_map.mpr ⟨p, h, hpd⟩

theorem keys_setKey_nodup {β : Type} (l : List (Nat × β)) (k : Nat) (v : β)
    (h : (l.map Prod.fst).Nodup) : ((setKey l k v).map Prod.fst).Nodup := by
  induction l with
  | nil => simp [setKey]
  | cons p rest ih =>
    simp only [List.map_cons, List.nodup_cons] at h
    by_cases hp : p.1 = k
    · simp only [setKey, if_pos hp, List.map_cons, List.nodup_cons]
      refine ⟨?_, h.2⟩
      rw [← hp]
      exact h.1
    · simp only [setKey, if_neg hp, List.map_cons, List.nodup_cons]
      refine ⟨?_, ih h.2⟩
      intro hmem
      rcases keys_setKey_subset rest k v p.1 hmem with he | he
      · exact hp he
      · exact h.1 he

theorem values_setKey_nodup (l : List (Nat × Nat)) (k v : Nat)
    (hn : (l.map Prod.snd).Nodup) (hb : ∀ p ∈ l, p.2 < v) :
    ((setKey l k v).map Prod.snd).Nodup := by
  induction l with
  | nil => simp [setKey]
  | cons p rest ih =>
    simp only [List.map_cons, List.nodup_cons] at hn
    by_cases hp : p.1 = k
    · simp only [setKey, if_pos hp, List.map_cons, List.nodup_cons]
      refine ⟨?_, hn.2⟩
      intro hmem
      rcases List.mem_map.mp hmem with ⟨q, hq, hqv⟩
      have := hb q (List.mem_cons_of_mem _ hq)
      omega
    · simp only [setKey, if_neg hp, List.map_cons, List.nodup_cons]
      refine ⟨?_, ih hn.2 (fun q hq => hb q (List.mem_cons_of_mem _ hq))⟩
      intro hmem
      rcases List.mem_map.mp hmem with ⟨q, hq, hqv⟩
      rcases mem_setKey rest k v q hq with he | he
      · have hbp := hb p (List.mem_cons_self _ _)
        rw [he] at hqv
        simp only at hqv
        omega
      · exact hn.1 (List.mem_map.mpr ⟨q, he, hqv⟩)

theorem keys_eraseKey_nodup {β : Type} (l : List (Nat × β)) (k : Nat)
    (h : (l.map Prod.fst).Nodup) : ((eraseKey l k).map Prod.fst).Nodup :=
  List.Nodup.sublist (List.Sublist.map _ (List.filter_sublist l)) h

theorem values_eraseKey_nodup (l : List (Nat × Nat)) (k : Nat)
    (h : (l.map Prod.snd).Nodup) : ((eraseKey l k).map Prod.snd).Nodup :=
  List.Nodup.sublist (List.Sublist.map _ (List.filter_sublist l)) h

theorem lookupKey_mem {β : Type} (l : List (Nat × β)) (k : Nat) (v : β)
    (h : lookupKey l k = some v) : (k, v) ∈ l := by
  induction l with
  | nil => simp [lookupKey] at h
  | cons p rest ih =>
    by_cases hp : p.1 = k
    · simp only [lookupKey, if_pos hp] at h
      have hpv : p = (k, v) := Prod.ext hp (Option.some.inj h)
      rw [← hpv]
      exact List.mem_cons_self _ _
    · simp only [lookupKey, if_neg hp] at h
      exact List.mem_cons_of_mem _ (ih h)

theorem closePeer_eq_some (s : Orch) (id k : Nat)
    (hl : lookupKey s.sessions id = some k) :
    closePeerConnectionO s id
      = { sessions := eraseKey s.sessions id
          closedSerials := s.closedSerials ++ [k]
          nextSerial := s.nextSerial } := by
  unfold closePeerConnectionO
  rw [hl]

theorem closePeer_eq_none (s : Orch) (id : Nat)
    (hl : lookupKey s.sessions id = none) :
    closePeerConnectionO s id = s := by
  unfold closePeerConnectionO
  rw [hl]

theorem orchInv_create (s : Orch) (id : Nat) (h : OrchInv s) :
    OrchInv (createPeerConnectionO s id) := by
  obtain ⟨h1, h2, h3, h4, h5⟩ := h
  unfold OrchInv createPeerConnectionO
  dsimp only
  refine ⟨keys_setKey_nodup _ _ _ h1, values_setKey_nodup _ _ _ h2 h3, ?_, ?_, ?_⟩
  · intro p hp
    rcases mem_setKey _ _ _ p hp with he | he
    · rw [he]
      omega
    · have := h3 p he
      omega
  · intro k hk
    have := h4 k hk
    omega
  · intro p hp
    rcases mem_setKey _ _ _ p hp with he | he
    · rw [he]
      intro hc
      have := h4 _ hc
      omega
    · exact h5 p he

theorem orchInv_close (s : Orch) (id : Nat) (h : OrchInv s) :
    OrchInv (closePeerConnectionO s id) := by
  obtain ⟨h1, h2, h3, h4, h5⟩ := h
  cases hl : lookupKey s.sessions id with
  | none =>
    rw [closePeer_eq_none s id hl]
    exact ⟨h1, h2, h3, h4, h5⟩
  | some k =>
    have hkmem : (id, k) ∈ s.sessions := lookupKey_mem _ _ _ hl
    rw [closePeer_eq_some s id k hl]
    unfold OrchInv
    dsimp only
    refine ⟨keys_eraseKey_nodup _ _ h1, values_eraseKey_nodup _ _ h2, ?_, ?_, ?_⟩
    · intro p hp
      exact h3 p ((mem_eraseKey _ _ p).mp hp).1
    · intro c hc
      rcases List.mem_append.mp hc with hc | hc
      · exact h4 c hc
      · simp only [List.mem_singleton] at hc
        subst hc
        exact h3 _ hkmem
    · intro p hp
      have hpl := (mem_eraseKey _ _ p).mp hp
      intro hc
      rcases List.mem_append.mp hc with hc | hc
      · exact h5 p hpl.1 hc
      · simp only [List.mem_singleton] at hc
        have hinj := List.inj_on_of_nodup_map h2
        have hpe : p = (id, k) := hinj hpl.1 hkmem hc
        apply hpl.2
        rw [hpe]

theorem orchInv_step (s : Orch) (op : OrchOp) (h : OrchInv s) : OrchInv (orchStep s op) := by
  cases op with
  | joined id => exact orchInv_create s id h
  | left id => exact orchInv_close s id h

theorem orchInv_run (ops : List OrchOp) (s : Orch) (h : OrchInv s) :
    OrchInv (orchRun s ops) := by
  induction ops generalizing s with
  | nil => exact h
  | cons op rest ih => exact ih _ (orchInv_step s op h)

theorem orchInv_init : OrchInv orchInit := by
  refine ⟨List.nodup_nil, List.nodup_nil, ?_, ?_, ?_⟩ <;> simp [orchInit]

/-- Claim C6: in every state reachable by participant-joined and
participant-left events, (a) the peer map holds at most one session per
participant ID; (b) no closed connection object ever sits in the peer map
again — a session that reached Closed is gone from the map and is never
transitioned again (handlers act only on map entries); (c) closing a
peer's session and then handling a fresh join for the same ID installs a
brand-new connection object whose serial differs from the closed one: the
closed session object is never reused. -/
theorem closed_sessions_never_reused (ops : List OrchOp) (id k : Nat) :
    (((orchRun orchInit ops).sessions.map Prod.fst).Nodup)
    ∧ (∀ c ∈ (orchRun orchInit ops).closedSerials,
        ∀ p ∈ (orchRun orchInit ops).sessions, p.2 ≠ c)
    ∧ (lookupKey (orchRun orchInit ops).sessions id = some k →
        lookupKey (orchRun (orchRun orchInit ops)
            [OrchOp.left id, OrchOp.joined id]).sessions id
          = some (orchRun orchInit ops).nextSerial
        ∧ (orchRun orchInit ops).nextSerial ≠ k
        ∧ k ∈ (orchRun (orchRun orchInit ops)
            [OrchOp.left id, OrchOp.joined id]).closedSerials) := by
  obtain ⟨h1, h2, h3, h4, h5⟩ := orchInv_run ops orchInit orchInv_init
  refine ⟨h1, ?_, ?_⟩
  · intro c hc p hp he
    exact h5 p hp (he ▸ hc)
  · intro hl
    have hrun : orchRun (orchRun orchInit ops) [OrchOp.left id, OrchOp.joined id]
        = createPeerConnectionO (closePeerConnectionO (orchRun orchInit ops) id) id := rfl
    have hclose := closePeer_eq_some (orchRun orchInit ops) id k hl
    have hk : k < (orchRun orchInit ops).nextSerial := h3 _ (lookupKey_mem _ _ _ hl)
    refine ⟨?_, by omega, ?_⟩
    · rw [hrun, hclose]
      unfold createPeerConnectionO
      dsimp only
      exact lookupKey_setKey_self _ _ _
    · rw [hrun, hclose]
      unfold createPeerConnectionO
      dsimp only
      exact List.mem_append.mpr (Or.inr (List.mem_singleton.mpr rfl))

/-- Claim C6 witness: peer 5 joins, leaves and rejoins — the rejoined
session is a fresh object (serial 1), distinct from the closed one
(serial 0), which is recorded as closed. -/
theorem closed_sessions_never_reused_witness :
    lookupKey (orchRun (orchRun orchInit [OrchOp.joined 5])
        [OrchOp.left 5, OrchOp.joined 5]).sessions 5
      = some (orchRun orchInit [OrchOp.joined 5]).nextSerial
    ∧ (orchRun orchInit [OrchOp.joined 5]).nextSerial ≠ 0
    ∧ 0 ∈ (orchRun (orchRun orchInit [OrchOp.joined 5])
        [OrchOp.left 5, OrchOp.joined 5]).closedSerials :=
  (closed_sessions_never_reused [OrchOp.joined 5] 5 0).2.2 rfl

/-!
Local media toggles (first variant, lines 1479-1513).  A MediaTrack keeps
the enabled flag the code flips and a stopped flag recording whether
track.stop() was ever called (the toggles never call it).  getVideoTracks
and getAudioTracks return the track lists; index [0] is the head.
-/

structure MediaTrack where
  enabled : Bool
  stopped : Bool
deriving DecidableEq, Repr

structure MediaStream where
  videoTracks : List MediaTrack
  audioTracks : List MediaTrack
deriving DecidableEq, Repr

inductive StatusEmit
  | toggleVideoOut (hasVideo : Bool)
  | toggleAudioOut (hasAudio : Bool)
deriving DecidableEq, Repr

structure ToggleClient where
  localStream : Option MediaStream
  isVideoEnabled : Bool
  isAudioEnabled : Bool
  peerConnections : List (Nat × PC)
deriving DecidableEq, Repr

/-- Embedding of WebRTCClient.toggleVideo (first variant, lines 1479-1495):
without a local stream, or without a video track, return false and do
nothing; otherwise flip the first video track's enabled flag, record it in
isVideoEnabled, emit one toggle-video status notice and return the new
flag. -/
def toggleVideo1 (s : ToggleClient) : ToggleClient × List StatusEmit × Bool :=
  match s.localStream with
  | none => (s, [], false)
  | some stream =>
    match stream.videoTracks with
    | [] => (s, [], false)
    | t :: rest =>
      let t2 : MediaTrack := { t with enabled := !t.enabled }
      ({ s with localStream := some { stream with videoTracks := t2 :: rest }
                isVideoEnabled := t2.enabled },
       [StatusEmit.toggleVideoOut t2.enabled], t2.enabled)

/-- Embedding of WebRTCClient.toggleAudio (first variant, lines 1497-1513),
symmetric to toggleVideo on the audio track list. -/
def toggleAudio1 (s : ToggleClient) : ToggleClient × List StatusEmit × Bool :=
  match s.localStream with
  | none => (s, [], false)
  | some stream =>
    match stream.audioTracks with
    | [] => (s, [], false)
    | t :: rest =>
      let t2 : MediaTrack := { t with enabled := !t.enabled }
      ({ s with localStream := some { stream with audioTracks := t2 :: rest }
                isAudioEnabled := t2.enabled },
       [StatusEmit.toggleAudioOut t2.enabled], t2.enabled)

/-- Claim C8: with a local stream owning a video (resp. audio) track, the
toggle flips exactly the enabled flag of that track — the track is neither
stopped nor removed nor replaced, the other track list is untouched and
the peer-connection map is untouched (no offer/answer round) — and emits
exactly one status notice carrying the new enabled state. -/
theorem toggle_flips_enabled_and_emits_once
    (s : ToggleClient) (stream : MediaStream) (t : MediaTrack) (rest : List MediaTrack)
    (hs : s.localStream = some stream) :
    (stream.videoTracks = t :: rest →
      toggleVideo1 s
        = ({ s with
              localStream :=
                some { stream with videoTracks := { t with enabled := !t.enabled } :: rest },
              isVideoEnabled := !t.enabled },
           [StatusEmit.toggleVideoOut (!t.enabled)], !t.enabled)
      ∧ ((toggleVideo1 s).1.localStream.map fun st2 =>
            st2.videoTracks.map MediaTrack.stopped)
          = some ((t :: rest).map MediaTrack.stopped)
      ∧ ((toggleVideo1 s).1.localStream.map fun st2 => st2.videoTracks.length)
          = some (t :: rest).length
      ∧ ((toggleVideo1 s).1.localStream.map fun st2 => st2.audioTracks)
          = some stream.audioTracks
      ∧ (toggleVideo1 s).1.peerConnections = s.peerConnections
      ∧ (toggleVideo1 s).2.1 = [StatusEmit.toggleVideoOut (!t.enabled)])
    ∧ (stream.audioTracks = t :: rest →
      toggleAudio1 s
        = ({ s with
              localStream :=
                some { stream with audioTracks := { t with enabled := !t.enabled } :: rest },
              isAudioEnabled := !t.enabled },
           [StatusEmit.toggleAudioOut (!t.enabled)], !t.enabled)
      ∧ ((toggleAudio1 s).1.localStream.map fun st2 =>
            st2.audioTracks.map MediaTrack.stopped)
          = some ((t :: rest).map MediaTrack.stopped)
      ∧ ((toggleAudio1 s).1.localStream.map fun st2 => st2.audioTracks.length)
          = some (t :: rest).length
      ∧ ((toggleAudio1 s).1.localStream.map fun st2 => st2.videoTracks)
          = some stream.videoTracks
      ∧ (toggleAudio1 s).1.peerConnections = s.peerConnections
      ∧ (toggleAudio1 s).2.1 = [StatusEmit.toggleAudioOut (!t.enabled)]) := by
  constructor
  · intro hv
    have he : toggleVideo1 s
        = ({ s with
              localStream :=
                some { stream with videoTracks := { t with enabled := !t.enabled } :: rest },
              isVideoEnabled := !t.enabled },
           [StatusEmit.toggleVideoOut (!t.enabled)], !t.enabled) := by
      simp [toggleVideo1, hs, hv]
    refine ⟨he, ?_, ?_, ?_, ?_, ?_⟩ <;> simp [he]
  · intro ha
    have he : toggleAudio1 s
        = ({ s with
              localStream :=
                some { stream with audioTracks := { t with enabled := !t.enabled } :: rest },
              isAudioEnabled := !t.enabled },
           [StatusEmit.toggleAudioOut (!t.enabled)], !t.enabled) := by
      simp [toggleAudio1, hs, ha]
    refine ⟨he, ?_, ?_, ?_, ?_, ?_⟩ <;> simp [he]

/-- Claim C8 witness: a concrete client with one enabled video track and
one enabled audio track; toggling produces the disabled state with exactly
one notice each. -/
theorem toggle_flips_enabled_and_emits_once_witness :
    toggleVideo1
        { localStream := some { videoTracks := [{ enabled := true, stopped := false }]
                                audioTracks := [{ enabled := true, stopped := false }] }
          isVideoEnabled := true, isAudioEnabled := true, peerConnections := [] }
      = ({ localStream := some { videoTracks := [{ enabled := false, stopped := false }]
                                 audioTracks := [{ enabled := true, stopped := false }] }
           isVideoEnabled := false, isAudioEnabled := true, peerConnections := [] },
         [StatusEmit.toggleVideoOut false], false) :=
  ((toggle_flips_enabled_and_emits_once
      { localStream := some { videoTracks := [{ enabled := true, stopped := false }]
                              audioTracks := [{ enabled := true, stopped := false }] }
        isVideoEnabled := true, isAudioEnabled := true, peerConnections := [] }
      { videoTracks := [{ enabled := true, stopped := false }]
        audioTracks := [{ enabled := true, stopped := false }] }
      { enabled := true, stopped := false } [] rfl).1 rfl).1

/-- Claim C10: with no local stream, or with a local stream lacking a video
(resp. audio) track, toggleVideo (resp. toggleAudio) returns false, emits
nothing, and leaves the entire client state — stream, enabled flags and
every peer connection — unchanged. -/
theorem toggle_noop_without_track (s : ToggleClient) :
    (s.localStream = none →
      toggleVideo1 s = (s, [], false) ∧ toggleAudio1 s = (s, [], false))
    ∧ (∀ stream, s.localStream = some stream → stream.videoTracks = [] →
        toggleVideo1 s = (s, [], false))
    ∧ (∀ stream, s.localStream = some stream → stream.audioTracks = [] →
        toggleAudio1 s = (s, [], false)) := by
  refine ⟨?_, ?_, ?_⟩
  · intro h
    constructor
    · simp [toggleVideo1, h]
    · simp [toggleAudio1, h]
  · intro stream hs hv
    simp [toggleVideo1, hs, hv]
  · intro stream hs ha
    simp [toggleAudio1, hs, ha]

/-- Claim C10 witness: a client whose stream has an audio track but no
video track — toggleVideo is a complete no-op returning false. -/
theorem toggle_noop_without_track_witness :
    toggleVideo1
        { localStream := some { videoTracks := []
                                audioTracks := [{ enabled := true, stopped := false }] }
          isVideoEnabled := false, isAudioEnabled := true, peerConnections := [] }
      = ({ localStream := some { videoTracks := []
                                 audioTracks := [{ enabled := true, stopped := false }] }
           isVideoEnabled := false, isAudioEnabled := true, peerConnections := [] },
         [], false) :=
  (toggle_noop_without_track
      { localStream := some { videoTracks := []
                              audioTracks := [{ enabled := true, stopped := false }] }
        isVideoEnabled := false, isAudioEnabled := true, peerConnections := [] }).2.1
    { videoTracks := [], audioTracks := [{ enabled := true, stopped := false }] }
    rfl rfl

/-!
ChatManager.shareFile (src/js/chat.js, lines 334-363).  A file is its
name, MIME type and byte content; FileReader.readAsDataURL produces a data
URL carrying the standard base64 encoding of the bytes, which fileToBase64
resolves with.  The observable outputs of shareFile — system messages,
progress UI calls and the share-file socket emission — are collected in
order.
-/

def b64AlphabetText : String :=
  "ABCDEFGHIJKLMNOPQRSTUVWXYZabcdefghijklmnopqrstuvwxyz0123456789+/"

def b64Char (n : Nat) : Char := b64AlphabetText.toList.getD n 'A'

def base64Chars : List Nat → List Char
  | [] => []
  | [a] => [b64Char (a / 4), b64Char (a % 4 * 16), '=', '=']
  | [a, b] => [b64Char (a / 4), b64Char (a % 4 * 16 + b / 16), b64Char (b % 16 * 4), '=']
  | a :: b :: d :: rest =>
    b64Char (a / 4) :: b64Char (a % 4 * 16 + b / 16) :: b64Char (b % 16 * 4 + d / 64)
      :: b64Char (d % 64) :: base64Chars rest

def base64String (bs : List Nat) : String := String.mk (base64Chars bs)

structure ChatFile where
  name : String
  fileType : String
  content : List Nat
deriving DecidableEq, Repr

def fileSize (f : ChatFile) : Nat := f.content.length

def chatMaxFileSize : Nat := 10 * 1024 * 1024

def dataUrlHead : String := "data:"

def dataUrlBase64Mark : String := ";base64,"

/-- Embedding of ChatManager.fileToBase64 combined with the FileReader data
URL it resolves with. -/
def fileToBase64 (f : ChatFile) : String :=
  dataUrlHead ++ f.fileType ++ dataUrlBase64Mark ++ base64String f.content

inductive ChatOut
  | systemMessage (text : String) (kind : String)
  | showUploadProgress (fileName : String)
  | hideUploadProgress
  | shareFileEvent (fileName : String) (fileData : String) (fileType : String)
      (fileSize : Nat)
deriving DecidableEq, Repr

def sizeErrorText : String := "File size must be less than 10MB"

def errorKind : String := "error"

def successKind : String := "success"

def sharedSuccessText (n : String) : String :=
  "File \"" ++ n ++ "\" shared successfully"

/-- Embedding of ChatManager.shareFile: files over the 10 MB limit produce
only the size error message; otherwise the file is encoded and exactly one
share-file event is emitted between the progress calls, followed by the
success message. -/
def shareFile (f : ChatFile) : List ChatOut :=
  if fileSize f > chatMaxFileSize then
    [.systemMessage sizeErrorText errorKind]
  else
    [.showUploadProgress f.name,
     .shareFileEvent f.name (fileToBase64 f) f.fileType (fileSize f),
     .hideUploadProgress,
     .systemMessage (sharedSuccessText f.name) successKind]

def isShareEvent : ChatOut → Bool
  | .shareFileEvent _ _ _ _ => true
  | _ => false

/-- Claim C9: for a file larger than 10 * 1024 * 1024 bytes, shareFile
emits only the size-limit error message and no share-file event; for a
file at or below the limit it emits exactly one share-file event carrying
the file's name, its base64 data URL, its type and its size. -/
theorem shareFile_size_limit_spec (f : ChatFile) :
    (fileSize f > chatMaxFileSize →
      shareFile f = [ChatOut.systemMessage sizeErrorText errorKind]
      ∧ (shareFile f).filter isShareEvent = [])
    ∧ (fileSize f ≤ chatMaxFileSize →
      (shareFile f).filter isShareEvent
        = [ChatOut.shareFileEvent f.name (fileToBase64 f) f.fileType (fileSize f)]) := by
  constructor
  · intro h
    refine ⟨by simp [shareFile, h], ?_⟩
    simp [shareFile, h, isShareEvent]
  · intro h
    have h2 : ¬ fileSize f > chatMaxFileSize := by omega
    simp [shareFile, h2, isShareEvent]

def smallChatFile : ChatFile :=
  { name := "hi.txt", fileType := "text/plain", content := [104, 105] }

/-- Claim C9 witness: a two-byte file is under the limit and yields exactly
one share-file event with its name, data URL, type and size. -/
theorem shareFile_size_limit_spec_witness :
    (shareFile smallChatFile).filter isShareEvent
      = [ChatOut.shareFileEvent smallChatFile.name (fileToBase64 smallChatFile)
          smallChatFile.fileType (fileSize smallChatFile)] :=
  (shareFile_size_limit_spec smallChatFile).2 (by decide)

end Webrtc
